import Mathlib

/-!
Verification of the document-extraction pipeline (`tools/pdf_processor.py`).

The development is a shallow embedding of `PDFProcessor`: pure Python string
and list manipulation becomes Lean functions on `String` / `List`; the on-disk
transcription cache and the document root become explicit state values that
are threaded through the functions; Python exceptions become `Except` /
`Option` results.  Wall-clock timing (`extraction_time_ms`) is not modelled:
it is real time, not data the program computes from its inputs.

Each section names the Python function it embeds.
-/

namespace Extrema

/-! ## Text normalization (`PDFProcessor._clean_text`, pdf_processor.py:525-531)

The Python code is
  text = text.replace("\x00", "")
  text = re.sub(r"[ \t]+", " ", text)
  text = re.sub(r"\n{3,}", "\n\n", text)
  text = text.strip()
Each regex substitution is embedded as a left-to-right scan: `[ \t]+ -> " "`
replaces every maximal run of spaces/tabs by one space, and `\n{3,} -> "\n\n"`
replaces every maximal run of three or more newlines by exactly two. -/

/-- Horizontal whitespace: the character class `[ \t]` of the first regex. -/
def isHT (c : Char) : Bool := c = ' ' || c = '\t'

/-- Newline test for the `\n{3,}` regex. -/
def isNL (c : Char) : Bool := c = '\n'

/-- Python `str.strip()` whitespace (the ASCII part, which is all the
pipeline produces: PDF text and the cleaner itself only emit ASCII space
classes). -/
def isPyWS (c : Char) : Bool :=
  c = ' ' || c = '\t' || c = '\n' || c = '\r' || c = '\x0b' || c = '\x0c'

/-- Embedding of `re.sub(r"[ \t]+", " ", text)`.  The flag records whether the
previous input character was part of a horizontal-whitespace run that has
already emitted its single replacement space. -/
def collapseWSAux : Bool → List Char → List Char
  | _, [] => []
  | prev, c :: rest =>
    if isHT c then
      if prev then collapseWSAux true rest
      else ' ' :: collapseWSAux true rest
    else c :: collapseWSAux false rest

/-- Embedding of `re.sub(r"\n{3,}", "\n\n", text)`.  The counter is the number
of newlines already emitted for the current newline run; once two have been
emitted the rest of the run is dropped, so a run of `k` newlines contributes
`min k 2` newlines, which is exactly the regex semantics (runs of 1 or 2 are
untouched, runs of 3 or more become 2). -/
def collapseNLAux : Nat → List Char → List Char
  | _, [] => []
  | n, c :: rest =>
    if c = '\n' then
      if n < 2 then '\n' :: collapseNLAux (n + 1) rest
      else collapseNLAux n rest
    else c :: collapseNLAux 0 rest

/-- Python `str.strip()` on a character list: drop whitespace from both ends. -/
def pyStripL (l : List Char) : List Char :=
  ((l.dropWhile isPyWS).reverse.dropWhile isPyWS).reverse

/-- Python `str.strip()`. -/
def pyStrip (s : String) : String := String.mk (pyStripL s.data)

/-- Embedding of `PDFProcessor._clean_text` on character lists, in the source
order: drop null bytes, collapse horizontal whitespace, collapse newline runs,
strip. -/
def cleanTextL (l : List Char) : List Char :=
  pyStripL (collapseNLAux 0 (collapseWSAux false (l.filter (fun c => !(c = '\x00')))))

/-- Embedding of `PDFProcessor._clean_text`. -/
def cleanText (s : String) : String := String.mk (cleanTextL s.data)

/-! Boolean observations used to state the normalization properties. -/

/-- Does the list contain character `a`? -/
def containsChar (a : Char) (l : List Char) : Bool := l.any (fun c => c = a)

/-- Does the list contain two adjacent characters both satisfying `p`? -/
def hasPair (p : Char → Bool) : List Char → Bool
  | a :: b :: rest => (p a && p b) || hasPair p (b :: rest)
  | _ => false

/-- Does the list contain three adjacent characters all satisfying `p`? -/
def hasTriple (p : Char → Bool) : List Char → Bool
  | a :: b :: c :: rest => (p a && p b && p c) || hasTriple p (b :: c :: rest)
  | _ => false

/-- Is the first character whitespace? (`false` for the empty list.) -/
def headWS (l : List Char) : Bool :=
  match l.head? with
  | some c => isPyWS c
  | none => false

/-- Is the last character whitespace? (`false` for the empty list.) -/
def lastWS (l : List Char) : Bool :=
  match l.getLast? with
  | some c => isPyWS c
  | none => false

/-! ## Table cleaning (`PDFProcessor._extract_tables_pdfplumber`, pdf_processor.py:501-514)

For each raw table from the table engine the code strips every cell (a
missing cell, Python `None`, becomes the empty string) and keeps the table
only if some cell is truthy, i.e. a non-empty string, after stripping:
  cleaned.append([(cell or "").strip() for cell in row])
  if any(any(cell for cell in row) for row in cleaned): tables.append(cleaned)
-/

/-- A raw table cell as delivered by pdfplumber: possibly `None`. -/
abbrev RawCell := Option String

/-- Strip every cell of a row, turning missing cells into `""`. -/
def cleanRow (row : List RawCell) : List String :=
  row.map (fun c => pyStrip (c.getD ""))

/-- Clean a whole raw table. -/
def cleanTable (t : List (List RawCell)) : List (List String) :=
  t.map cleanRow

/-- Python truthiness test of the cleaned table: some cell is non-empty. -/
def tableKeep (t : List (List String)) : Bool :=
  t.any (fun row => row.any (fun cell => decide (cell ≠ "")))

/-- Embedding of the per-page table loop of `_extract_tables_pdfplumber`:
clean each raw table and append it to the accumulator only when it has a
non-empty cell. -/
def extractTablesPage (raw : List (List (List RawCell))) : List (List (List String)) :=
  raw.foldl (fun acc t =>
    let cleaned := cleanTable t
    if tableKeep cleaned then acc ++ [cleaned] else acc) []

/-! ## Path resolution (`PDFProcessor._resolve_path`, pdf_processor.py:144-161)

Paths are component lists (a Python path split on `/`).  `resolveJoin` embeds
`(docs_root / filepath).resolve()` for a symlink-free tree: `..` pops a
component, `.` is dropped, anything else is appended.  The code first checks
`candidate.is_relative_to(docs_root)` and raises `ValueError` ("Path escapes
docs directory", the spec's `PathEscapeError`) before any existence check;
only an in-root candidate is then tested with `candidate.exists()`, raising
`FileNotFoundError` (the spec's `NotFoundError`) when absent.  The second
component of the result records every path whose existence was queried. -/

/-- Error taxonomy of `_resolve_path`: `ValueError` for an escaping path,
`FileNotFoundError` for a missing in-root path. -/
inductive ResolveError where
  | pathEscape
  | notFound
deriving DecidableEq

/-- Lexical normalization of `docs_root / filepath` as done by `resolve()`. -/
def resolveJoin (root fp : List String) : List String :=
  fp.foldl
    (fun acc c =>
      if c = ".." then acc.dropLast
      else if c = "." then acc
      else acc ++ [c])
    root

/-- Component-wise test of `candidate.is_relative_to(docs_root)`. -/
def componentsLE : List String → List String → Bool
  | [], _ => true
  | _ :: _, [] => false
  | a :: as, b :: bs => a = b && componentsLE as bs

/-- Embedding of `_resolve_path`.  `fsHas` is the filesystem's existence
oracle; the returned list contains every path it was consulted on. -/
def resolve_path (root fp : List String) (fsHas : List String → Bool) :
    Except ResolveError (List String) × List (List String) :=
  let candidate := resolveJoin root fp
  if componentsLE root candidate then
    (if fsHas candidate then Except.ok candidate else Except.error ResolveError.notFound,
     [candidate])
  else
    (Except.error ResolveError.pathEscape, [])

/-! ## Byte-level cache write (`PDFProcessor._save_cache`, pdf_processor.py:597-623)

The code computes the cache path and then
  with cache_file.open("w", encoding="utf-8") as f:
      json.dump(data, f, ensure_ascii=False, indent=2)
inside a `try` whose `except` only logs.  `open(..., "w")` truncates the
target file immediately and `json.dump` streams its output into it, so the
embedding takes the (abstract) full serialization `payload` together with a
failure point: `none` means `json.dump` completed, `some k` means it raised
after `k` characters had been written, leaving the truncated prefix on disk
(the exception itself is swallowed by the `except` branch).  There is no
temporary file and no rename in the source. -/

/-- A flat file store: association list from path to file content. -/
abbrev ByteFS := List (String × String)

/-- Read a file. -/
def fsGet : ByteFS → String → Option String
  | [], _ => none
  | (k, v) :: rest, key => if k = key then some v else fsGet rest key

/-- Write (create or overwrite) a file. -/
def fsSet (fs : ByteFS) (key v : String) : ByteFS := (key, v) :: fs

/-- Embedding of `_save_cache`'s file-system effect.  `failAt = some k`
models `json.dump` raising after writing `k` characters of `payload`. -/
def save_cache (fs : ByteFS) (cacheFile payload : String) (failAt : Option Nat) : ByteFS :=
  match failAt with
  | none => fsSet fs cacheFile payload
  | some k => fsSet fs cacheFile (payload.take k)

/-! ## Data model (pdf_processor.py:40-94)

The dataclasses `PageContent`, `PDFMetadata` and `ExtractionResult`, minus
the wall-clock `extraction_time_ms` field (real time is outside the model;
it is also the one field `_load_cache` does not restore). -/

/-- Dataclass `PageContent`. -/
structure PageContent where
  page_number : Nat
  text : String
  tables : List (List (List String))
  has_images : Bool
  extraction_method : String
deriving DecidableEq

/-- Dataclass `PDFMetadata`. -/
structure PDFMetadata where
  filename : String
  filepath : String
  num_pages : Nat
  title : String
  author : String
  subject : String
  creator : String
  creation_date : String
  file_hash : String
  file_size_bytes : Nat
deriving DecidableEq

/-- Dataclass `ExtractionResult` (without the wall-clock timing field). -/
structure ExtractionResult where
  metadata : PDFMetadata
  pages : List PageContent
  warnings : List String
deriving DecidableEq

/-! ## Engine inputs

The extraction engines (PyMuPDF text layer, image probe, Tesseract OCR,
pdfplumber tables) are external boundaries; a page of the input document is
modelled by what those engines would report for it. -/

/-- What the engines see on one page: `nativeText` is `page.get_text("text")`,
`hasImages` is `len(page.get_images()) > 0`, `ocrOutput` is what
`pytesseract.image_to_string` would return (`none` if the engine raises), and
`rawTables` is `pdfplumber`'s `page.extract_tables()`. -/
structure RawPage where
  nativeText : String
  hasImages : Bool
  ocrOutput : Option String
  rawTables : List (List (List RawCell))
deriving DecidableEq

/-- Placeholder page used only to totalize list indexing; never reached for
indices inside the extraction window. -/
def defaultRawPage : RawPage := ⟨"", false, none, []⟩

/-- Document-level properties delivered by `doc.metadata`. -/
structure DocProps where
  title : String
  author : String
  subject : String
  creator : String
  creationDate : String
deriving DecidableEq

/-- A PDF document as the engines expose it. -/
structure Doc where
  props : DocProps
  pages : List RawPage
deriving DecidableEq

/-- File-level identity computed before extraction: name, resolved path,
sanitizable stem, the 16-hex-character content hash of `_file_hash`, and the
on-disk size. -/
structure FileIdentity where
  filename : String
  filepath : String
  stem : String
  fileHash : String
  fileSizeBytes : Nat
deriving DecidableEq

/-- Processor state relevant to extraction decisions: whether Tesseract was
probed as available at startup (`self._ocr_available`). -/
structure Config where
  ocrAvailable : Bool
deriving DecidableEq

/-- Class constant `PDFProcessor.MIN_TEXT_THRESHOLD` (pdf_processor.py:104). -/
def MIN_TEXT_THRESHOLD : Nat := 50

/-! ## Per-page extraction (`extract_text` page loop, pdf_processor.py:268-305,
and `PDFProcessor._try_ocr`, pdf_processor.py:444-483) -/

/-- Embedding of `_try_ocr`: `None` when OCR is unavailable; otherwise run
the engine (whose raising is `ocrOutput = none`, caught by the `except`) and
accept its text only when `len(text.strip()) > MIN_TEXT_THRESHOLD`. -/
def try_ocr (cfg : Config) (rp : RawPage) : Option String :=
  if cfg.ocrAvailable then
    match rp.ocrOutput with
    | some t => if MIN_TEXT_THRESHOLD < (pyStrip t).length then some t else none
    | none => none
  else none

/-- The OCR gate of the page loop (pdf_processor.py:276-279):
`len(text.strip()) < self.MIN_TEXT_THRESHOLD and has_images`. -/
def ocrGate (rp : RawPage) : Bool :=
  decide ((pyStrip rp.nativeText).length < MIN_TEXT_THRESHOLD) && rp.hasImages

/-- The low-text warning string of pdf_processor.py:285-289. -/
def lowTextWarning (pageNum stripLen : Nat) : String :=
  "Pagina " ++ toString pageNum ++ ": pouco texto extraido (" ++ toString stripLen
    ++ " chars), pagina pode ser imagem/escaneada"

/-- Text, extraction method and warnings chosen for one page, before
normalization: native text unless the gate fires and OCR succeeds; the
warning is emitted exactly when the gate fires and OCR yields nothing. -/
def pageOutcome (cfg : Config) (rp : RawPage) (pageNum : Nat) : String × String × List String :=
  if ocrGate rp then
    match try_ocr cfg rp with
    | some t => (t, "ocr_tesseract", [])
    | none => (rp.nativeText, "pymupdf", [lowTextWarning pageNum (pyStrip rp.nativeText).length])
  else (rp.nativeText, "pymupdf", [])

/-- One iteration of the page loop: the produced `PageContent`, the warnings
it appends, and whether `_try_ocr` was invoked (the OCR attempt flag used to
state the engine-invocation claims). -/
def extractPage (cfg : Config) (rp : RawPage) (pageNum : Nat) (extractTables : Bool) :
    PageContent × List String × Bool :=
  (⟨pageNum,
    cleanText (pageOutcome cfg rp pageNum).1,
    (if extractTables then extractTablesPage rp.rawTables else []),
    rp.hasImages,
    (pageOutcome cfg rp pageNum).2.1⟩,
   (pageOutcome cfg rp pageNum).2.2,
   ocrGate rp)

/-! ## Transcription cache (`_cache_path`, `_load_cache`, `_save_cache` at the
structural level, pdf_processor.py:557-623)

The cache directory is an association list from cache file name to entry.
An entry is either the structured content that `json.load` plus the dataclass
constructors would rebuild (exactly the serialized fields: metadata, pages,
warnings) or `corrupt`, standing for any on-disk bytes whose deserialization
raises — the `except` branch of `_load_cache` turns that into `None`. -/

/-- An on-disk cache entry: well-formed or failing deserialization. -/
inductive CacheFile where
  | good : ExtractionResult → CacheFile
  | corrupt : CacheFile
deriving DecidableEq

/-- The cache directory. -/
abbrev Store := List (String × CacheFile)

/-- Look a cache file up by name. -/
def storeFind : Store → String → Option CacheFile
  | [], _ => none
  | (k, v) :: rest, key => if k = key then some v else storeFind rest key

/-- Create or overwrite a cache file. -/
def storeSet (st : Store) (key : String) (v : CacheFile) : Store := (key, v) :: st

/-- Embedding of `re.sub(r"[^\w\-]", "_", stem)` in `_cache_path` (ASCII
`\w`). -/
def sanitizeStem (stem : String) : String :=
  String.mk (stem.data.map (fun c => if c.isAlphanum || c = '_' || c = '-' then c else '_'))

/-- Embedding of `_cache_path`: `f"{safe_name}_{file_hash}.json"` inside the
transcriptions directory.  It depends on nothing but the stem and the hash. -/
def cache_path (stem fileHash : String) : String :=
  sanitizeStem stem ++ "_" ++ fileHash ++ ".json"

/-- Embedding of `_load_cache`: `None` on a missing file, the rebuilt result
on a readable one, and `None` again when deserialization raises (the
catch-all `except`).  The function is total — no error can escape it. -/
def load_cache (st : Store) (key : String) : Option ExtractionResult :=
  match storeFind st key with
  | none => none
  | some CacheFile.corrupt => none
  | some (CacheFile.good r) => some r

/-- Python truthiness of the optional page arguments (`None` and `0` are
falsy). -/
def truthyNat : Option Nat → Bool
  | none => false
  | some n => decide (n ≠ 0)

/-- Python `x or d` for the optional page arguments. -/
def pyOrNat (o : Option Nat) (d : Nat) : Nat :=
  match o with
  | some n => if n = 0 then d else n
  | none => d

/-- Embedding of `_filter_pages` (pdf_processor.py:625-638):
`start = (page_start or 1) - 1`, `end = page_end or len(pages)`, then the
Python slice `pages[start:end]`; metadata and warnings are passed through. -/
def filter_pages (r : ExtractionResult) (pageStart pageEnd : Option Nat) : ExtractionResult :=
  let start := pyOrNat pageStart 1 - 1
  let stop := pyOrNat pageEnd r.pages.length
  ⟨r.metadata, (r.pages.drop start).take (stop - start), r.warnings⟩

/-! ## The orchestrator (`PDFProcessor.extract_text`, pdf_processor.py:198-327) -/

/-- `start_idx = (page_start - 1) if page_start else 0`. -/
def startIndex : Option Nat → Nat
  | some n => if n = 0 then 0 else n - 1
  | none => 0

/-- `end_idx = page_end if page_end else len(doc)` followed by
`end_idx = min(end_idx, len(doc))`. -/
def endIndex (pageEnd : Option Nat) (numPages : Nat) : Nat :=
  min (match pageEnd with | some n => if n = 0 then numPages else n | none => numPages) numPages

/-- The index list `range(start_idx, end_idx)` as start and count. -/
def idxRange : Nat → Nat → List Nat
  | _, 0 => []
  | a, n + 1 => a :: idxRange (a + 1) n

/-- The page loop of `extract_text`: run `extractPage` for each index of the
window (pages are 1-indexed, engines 0-indexed: `page_num = i + 1`). -/
def pageItems (cfg : Config) (doc : Doc) (startIdx count : Nat) (extractTables : Bool) :
    List (PageContent × List String × Bool) :=
  (idxRange startIdx count).map
    (fun i => extractPage cfg (doc.pages.getD i defaultRawPage) (i + 1) extractTables)

/-- Count of engine invocations during one `extract_text` call, used to state
the cache-hit guarantee ("a cache hit never re-invokes extraction engines"). -/
structure EngineLog where
  textCalls : Nat
  ocrCalls : Nat
  tableCalls : Nat
deriving DecidableEq

/-- The log of a call that touched no engine. -/
def noEngineCalls : EngineLog := ⟨0, 0, 0⟩

/-- Engine invocations of a run of the page loop: one text extraction per
page, one `_try_ocr` per page whose gate fired, one pdfplumber pass per page
when tables were requested. -/
def logOf (items : List (PageContent × List String × Bool)) (extractTables : Bool) : EngineLog :=
  ⟨items.length,
   (items.filter (fun it => it.2.2)).length,
   if extractTables then items.length else 0⟩

/-- The `PDFMetadata` built on a cache miss (pdf_processor.py:241-259). -/
def buildMetadata (idn : FileIdentity) (doc : Doc) : PDFMetadata :=
  ⟨idn.filename, idn.filepath, doc.pages.length, doc.props.title, doc.props.author,
   doc.props.subject, doc.props.creator, doc.props.creationDate, idn.fileHash,
   idn.fileSizeBytes⟩

/-- The cache-miss path of `extract_text`: run the page loop over the window,
assemble the result, and persist it — but only when `use_cache` holds and
both page arguments are falsy (pdf_processor.py:316-317). -/
def extractMiss (cfg : Config) (idn : FileIdentity) (doc : Doc)
    (pageStart pageEnd : Option Nat) (extractTables useCache : Bool) (store : Store) :
    ExtractionResult × Store × EngineLog :=
  let s := startIndex pageStart
  let e := endIndex pageEnd doc.pages.length
  let items := pageItems cfg doc s (e - s) extractTables
  let result : ExtractionResult :=
    ⟨buildMetadata idn doc, items.map (fun it => it.1), (items.map (fun it => it.2.1)).flatten⟩
  let store2 :=
    if useCache && !truthyNat pageStart && !truthyNat pageEnd then
      storeSet store (cache_path idn.stem idn.fileHash) (CacheFile.good result)
    else store
  (result, store2, logOf items extractTables)

/-- Embedding of `PDFProcessor.extract_text`: on `use_cache`, a successful
cache load returns the entry (projected through `_filter_pages` when either
page argument is truthy) with the store untouched and no engine invoked;
otherwise the miss path runs. -/
def extract_text (cfg : Config) (idn : FileIdentity) (doc : Doc)
    (pageStart pageEnd : Option Nat) (extractTables useCache : Bool) (store : Store) :
    ExtractionResult × Store × EngineLog :=
  match (if useCache then load_cache store (cache_path idn.stem idn.fileHash) else none) with
  | some cached =>
      ((if truthyNat pageStart || truthyNat pageEnd then filter_pages cached pageStart pageEnd
        else cached),
       store, noEngineCalls)
  | none => extractMiss cfg idn doc pageStart pageEnd extractTables useCache store

/-! ## Concrete documents used by the scenario claims -/

/-- The three-page scenario document of the spec: page 1 has 500 native
characters, page 2 has 5 native characters and an embedded image (the OCR
engine would return 200 characters for it), page 3 has 5 native characters
and no image. -/
def scenarioDoc : Doc :=
  ⟨⟨"", "", "", "", ""⟩,
   [⟨String.mk (List.replicate 500 'a'), false, none, []⟩,
    ⟨"abcde", true, some (String.mk (List.replicate 200 'b')), []⟩,
    ⟨"vwxyz", false, none, []⟩]⟩

/-- Identity for the scenario file. -/
def scenarioIdn : FileIdentity := ⟨"doc.pdf", "docs/doc.pdf", "doc", "0123456789abcdef", 1000⟩

/-- The scenario extraction: OCR engine present, full document, no cache. -/
def scenarioResult : ExtractionResult :=
  (extract_text ⟨true⟩ scenarioIdn scenarioDoc none none true false []).1

/-- Fallback page for total indexing in scenario statements. -/
def defaultPageContent : PageContent := ⟨0, "", [], false, ""⟩

/-- A plain three-page document (no images, no tables) used for the cache
round-trip scenarios. -/
def plainDoc : Doc :=
  ⟨⟨"t", "au", "su", "cr", "cd"⟩,
   [⟨"page one text here", false, none, []⟩,
    ⟨"page two text here", false, none, []⟩,
    ⟨"page three text here", false, none, []⟩]⟩

/-- Identity for the plain document. -/
def plainIdn : FileIdentity := ⟨"f.pdf", "docs/f.pdf", "f", "deadbeefdeadbeef", 42⟩

/-! ## Lemmas about the text normalization -/

theorem hasPair_cons (p : Char → Bool) (c : Char) (r : List Char) :
    hasPair p (c :: r) = ((match r with | d :: _ => p c && p d | [] => false) || hasPair p r) := by
  cases r with
  | nil => simp [hasPair]
  | cons d t => simp [hasPair]

theorem hasTriple_cons (p : Char → Bool) (c : Char) (r : List Char) :
    hasTriple p (c :: r)
      = ((match r with | d :: e :: _ => p c && p d && p e | _ => false) || hasTriple p r) := by
  cases r with
  | nil => simp [hasTriple]
  | cons d t =>
    cases t with
    | nil => simp [hasTriple]
    | cons e t2 => simp [hasTriple]

theorem hasPair_eq_true_iff (p : Char → Bool) (l : List Char) :
    hasPair p l = true ↔ ∃ l₁ a b l₂, l = l₁ ++ a :: b :: l₂ ∧ p a = true ∧ p b = true := by
  induction l with
  | nil =>
    simp only [hasPair]
    constructor
    · intro h; exact absurd h (by simp)
    · rintro ⟨l₁, a, b, l₂, h, _, _⟩
      exact absurd h (by simp)
  | cons c r ih =>
    rw [hasPair_cons]
    constructor
    · intro h
      rcases Bool.or_eq_true_iff.mp h with h1 | h2
      · match r, h1 with
        | d :: t, h1 =>
          rcases Bool.and_eq_true_iff.mp h1 with ⟨hc, hd⟩
          exact ⟨[], c, d, t, rfl, hc, hd⟩
      · rcases ih.mp h2 with ⟨l₁, a, b, l₂, he, ha, hb⟩
        exact ⟨c :: l₁, a, b, l₂, by simp [he], ha, hb⟩
    · rintro ⟨l₁, a, b, l₂, he, ha, hb⟩
      cases l₁ with
      | nil =>
        simp only [List.nil_append] at he
        cases he
        simp [ha, hb]
      | cons x l₁t =>
        simp only [List.cons_append, List.cons.injEq] at he
        rcases he with ⟨_, he2⟩
        have hr : hasPair p r = true := ih.mpr ⟨l₁t, a, b, l₂, he2, ha, hb⟩
        simp [hr]

theorem hasTriple_eq_true_iff (p : Char → Bool) (l : List Char) :
    hasTriple p l = true
      ↔ ∃ l₁ a b c l₂, l = l₁ ++ a :: b :: c :: l₂ ∧ p a = true ∧ p b = true ∧ p c = true := by
  induction l with
  | nil =>
    simp only [hasTriple]
    constructor
    · intro h; exact absurd h (by simp)
    · rintro ⟨l₁, a, b, c, l₂, h, _⟩
      exact absurd h (by simp)
  | cons x r ih =>
    rw [hasTriple_cons]
    constructor
    · intro h
      rcases Bool.or_eq_true_iff.mp h with h1 | h2
      · match r, h1 with
        | d :: e :: t, h1 =>
          rcases Bool.and_eq_true_iff.mp h1 with ⟨h1a, he⟩
          rcases Bool.and_eq_true_iff.mp h1a with ⟨hx, hd⟩
          exact ⟨[], x, d, e, t, rfl, hx, hd, he⟩
      · rcases ih.mp h2 with ⟨l₁, a, b, c, l₂, hrest, ha, hb, hc⟩
        exact ⟨x :: l₁, a, b, c, l₂, by simp [hrest], ha, hb, hc⟩
    · rintro ⟨l₁, a, b, c, l₂, he, ha, hb, hc⟩
      cases l₁ with
      | nil =>
        simp only [List.nil_append] at he
        cases he
        simp [ha, hb, hc]
      | cons y l₁t =>
        simp only [List.cons_append, List.cons.injEq] at he
        rcases he with ⟨_, he2⟩
        have hr : hasTriple p r = true := ih.mpr ⟨l₁t, a, b, c, l₂, he2, ha, hb, hc⟩
        simp [hr]

theorem hasPair_false_of_within {p : Char → Bool} {m l : List Char}
    (hinf : m <:+: l) (h : hasPair p l = false) : hasPair p m = false := by
  by_contra hne
  have hm : hasPair p m = true := by
    cases hq : hasPair p m with
    | false => exact absurd hq hne
    | true => rfl
  rcases (hasPair_eq_true_iff p m).mp hm with ⟨l₁, a, b, l₂, he, ha, hb⟩
  rcases hinf with ⟨s, t, hst⟩
  have hl : l = (s ++ l₁) ++ a :: b :: (l₂ ++ t) := by
    rw [← hst, he]; simp
  have : hasPair p l = true := (hasPair_eq_true_iff p l).mpr ⟨s ++ l₁, a, b, l₂ ++ t, hl, ha, hb⟩
  rw [h] at this; exact Bool.false_ne_true this

theorem hasTriple_false_of_within {p : Char → Bool} {m l : List Char}
    (hinf : m <:+: l) (h : hasTriple p l = false) : hasTriple p m = false := by
  by_contra hne
  have hm : hasTriple p m = true := by
    cases hq : hasTriple p m with
    | false => exact absurd hq hne
    | true => rfl
  rcases (hasTriple_eq_true_iff p m).mp hm with ⟨l₁, a, b, c, l₂, he, ha, hb, hc⟩
  rcases hinf with ⟨s, t, hst⟩
  have hl : l = (s ++ l₁) ++ a :: b :: c :: (l₂ ++ t) := by
    rw [← hst, he]; simp
  have : hasTriple p l = true :=
    (hasTriple_eq_true_iff p l).mpr ⟨s ++ l₁, a, b, c, l₂ ++ t, hl, ha, hb, hc⟩
  rw [h] at this; exact Bool.false_ne_true this

theorem pyStripL_within (l : List Char) : pyStripL l <:+: l := by
  have h1 : l.dropWhile isPyWS <:+ l := List.dropWhile_suffix isPyWS
  have h2 : (l.dropWhile isPyWS).reverse.dropWhile isPyWS <:+ (l.dropWhile isPyWS).reverse :=
    List.dropWhile_suffix isPyWS
  have h3 : ((l.dropWhile isPyWS).reverse.dropWhile isPyWS).reverse <+: l.dropWhile isPyWS := by
    rw [← List.reverse_suffix]
    simpa using h2
  exact (h3.isInfix).trans h1.isInfix

theorem collapseWS_head_not_HT :
    ∀ (l : List Char) (c : Char), (collapseWSAux true l).head? = some c → isHT c = false := by
  intro l
  induction l with
  | nil => intro c h; simp [collapseWSAux] at h
  | cons d r ih =>
    intro c h
    by_cases hd : isHT d = true
    · rw [show collapseWSAux true (d :: r) = collapseWSAux true r by simp [collapseWSAux, hd]] at h
      exact ih c h
    · rw [show collapseWSAux true (d :: r) = d :: collapseWSAux false r by
        simp [collapseWSAux, hd]] at h
      simp only [List.head?_cons, Option.some.injEq] at h
      rw [← h]
      exact Bool.not_eq_true _ ▸ hd

theorem collapseWS_no_pair : ∀ (l : List Char) (b : Bool),
    hasPair isHT (collapseWSAux b l) = false := by
  intro l
  induction l with
  | nil => intro b; simp [collapseWSAux, hasPair]
  | cons c r ih =>
    intro b
    by_cases hc : isHT c = true
    · cases b with
      | true =>
        rw [show collapseWSAux true (c :: r) = collapseWSAux true r by simp [collapseWSAux, hc]]
        exact ih true
      | false =>
        rw [show collapseWSAux false (c :: r) = ' ' :: collapseWSAux true r by
          simp [collapseWSAux, hc]]
        rw [hasPair_cons]
        cases hrec : collapseWSAux true r with
        | nil => simp [hasPair]
        | cons d t =>
          have hd : isHT d = false := collapseWS_head_not_HT r d (by rw [hrec]; rfl)
          simp only [hd, Bool.and_false, Bool.false_or]
          rw [← hrec]
          exact ih true
    · rw [show collapseWSAux b (c :: r) = c :: collapseWSAux false r by
        simp [collapseWSAux, hc]]
      rw [hasPair_cons]
      have hcf : isHT c = false := Bool.not_eq_true _ ▸ hc
      cases hrec : collapseWSAux false r with
      | nil => simp [hasPair]
      | cons d t =>
        simp only [hcf, Bool.false_and, Bool.false_or]
        rw [← hrec]
        exact ih false

theorem collapseNL_cons_zero (c : Char) (r : List Char) :
    collapseNLAux 0 (c :: r) = c :: collapseNLAux (if c = '\n' then 1 else 0) r := by
  by_cases hc : c = '\n'
  · subst hc; simp [collapseNLAux]
  · simp [collapseNLAux, hc]

theorem collapseNL_pair_preserve : ∀ (l : List Char) (n : Nat),
    hasPair isHT l = false → hasPair isHT (collapseNLAux n l) = false := by
  intro l
  induction l with
  | nil => intro n _; simp [collapseNLAux, hasPair]
  | cons c r ih =>
    intro n h
    rw [hasPair_cons] at h
    rcases Bool.or_eq_false_iff.mp h with ⟨hhead, htail⟩
    by_cases hc : c = '\n'
    · subst hc
      by_cases hn : n < 2
      · rw [show collapseNLAux n ('\n' :: r) = '\n' :: collapseNLAux (n + 1) r by
          simp [collapseNLAux, hn]]
        rw [hasPair_cons]
        have hnl : isHT '\n' = false := by decide
        cases hrec : collapseNLAux (n + 1) r with
        | nil => simp [hasPair]
        | cons d t =>
          simp only [hnl, Bool.false_and, Bool.false_or]
          rw [← hrec]
          exact ih (n + 1) htail
      · rw [show collapseNLAux n ('\n' :: r) = collapseNLAux n r by simp [collapseNLAux, hn]]
        exact ih n htail
    · rw [show collapseNLAux n (c :: r) = c :: collapseNLAux 0 r by simp [collapseNLAux, hc]]
      rw [hasPair_cons]
      cases r with
      | nil => simp [collapseNLAux, hasPair]
      | cons d t =>
        apply Bool.or_eq_false_iff.mpr
        constructor
        · rw [collapseNL_cons_zero]
          exact hhead
        · exact ih 0 htail

theorem collapseNL_head_skip : ∀ (l : List Char) (n : Nat), 2 ≤ n →
    ∀ c : Char, (collapseNLAux n l).head? = some c → isNL c = false := by
  intro l
  induction l with
  | nil => intro n _ c h; simp [collapseNLAux] at h
  | cons d r ih =>
    intro n hn c h
    by_cases hd : d = '\n'
    · subst hd
      have hlt : ¬(n < 2) := by omega
      rw [show collapseNLAux n ('\n' :: r) = collapseNLAux n r by simp [collapseNLAux, hlt]] at h
      exact ih n hn c h
    · rw [show collapseNLAux n (d :: r) = d :: collapseNLAux 0 r by simp [collapseNLAux, hd]] at h
      simp only [List.head?_cons, Option.some.injEq] at h
      rw [← h]
      simp [isNL, hd]

theorem collapseNL_one_no_two_NL : ∀ l : List Char,
    (match collapseNLAux 1 l with
     | a :: b :: _ => isNL a && isNL b
     | _ => false) = false := by
  intro l
  cases l with
  | nil => simp [collapseNLAux]
  | cons x r =>
    by_cases hx : x = '\n'
    · subst hx
      rw [show collapseNLAux 1 ('\n' :: r) = '\n' :: collapseNLAux 2 r by
        simp [collapseNLAux]]
      cases hrec : collapseNLAux 2 r with
      | nil => rfl
      | cons b t =>
        have hb : isNL b = false := collapseNL_head_skip r 2 (by omega) b (by rw [hrec]; rfl)
        simp [hb]
    · rw [show collapseNLAux 1 (x :: r) = x :: collapseNLAux 0 r by simp [collapseNLAux, hx]]
      have hxf : isNL x = false := by simp [isNL, hx]
      cases collapseNLAux 0 r with
      | nil => rfl
      | cons b t => simp [hxf]

theorem collapseNL_no_triple : ∀ (l : List Char) (n : Nat),
    hasTriple isNL (collapseNLAux n l) = false := by
  intro l
  induction l with
  | nil => intro n; simp [collapseNLAux, hasTriple]
  | cons c r ih =>
    intro n
    by_cases hc : c = '\n'
    · subst hc
      by_cases hn : n < 2
      · rw [show collapseNLAux n ('\n' :: r) = '\n' :: collapseNLAux (n + 1) r by
          simp [collapseNLAux, hn]]
        rw [hasTriple_cons]
        have hfirst : (match collapseNLAux (n + 1) r with
            | d :: e :: _ => isNL '\n' && isNL d && isNL e
            | _ => false) = false := by
          have hn2 : n = 0 ∨ n = 1 := by omega
          rcases hn2 with h0 | h1
          · subst h0
            have := collapseNL_one_no_two_NL r
            cases hrec : collapseNLAux 1 r with
            | nil => rfl
            | cons d t =>
              cases t with
              | nil => rfl
              | cons e t2 =>
                rw [hrec] at this
                simp only at this
                rcases Bool.and_eq_false_iff.mp this with hd | he
                · simp [hd]
                · simp [he]
          · subst h1
            cases hrec : collapseNLAux 2 r with
            | nil => rfl
            | cons d t =>
              have hd : isNL d = false := collapseNL_head_skip r 2 (by omega) d (by rw [hrec]; rfl)
              cases t with
              | nil => rfl
              | cons e t2 => simp [hd]
        rw [hfirst, Bool.false_or]
        exact ih (n + 1)
      · rw [show collapseNLAux n ('\n' :: r) = collapseNLAux n r by simp [collapseNLAux, hn]]
        exact ih n
    · rw [show collapseNLAux n (c :: r) = c :: collapseNLAux 0 r by simp [collapseNLAux, hc]]
      rw [hasTriple_cons]
      have hcf : isNL c = false := by simp [isNL, hc]
      have hfirst : (match collapseNLAux 0 r with
          | d :: e :: _ => isNL c && isNL d && isNL e
          | _ => false) = false := by
        cases collapseNLAux 0 r with
        | nil => rfl
        | cons d t =>
          cases t with
          | nil => rfl
          | cons e t2 => simp [hcf]
      rw [hfirst, Bool.false_or]
      exact ih 0

theorem mem_collapseWSAux : ∀ (l : List Char) (b : Bool) (c : Char),
    c ∈ collapseWSAux b l → c = ' ' ∨ (c ∈ l ∧ isHT c = false) := by
  intro l
  induction l with
  | nil => intro b c h; simp [collapseWSAux] at h
  | cons d r ih =>
    intro b c h
    by_cases hd : isHT d = true
    · cases b with
      | true =>
        rw [show collapseWSAux true (d :: r) = collapseWSAux true r by
          simp [collapseWSAux, hd]] at h
        rcases ih true c h with h1 | ⟨h2, h3⟩
        · exact Or.inl h1
        · exact Or.inr ⟨List.mem_cons_of_mem d h2, h3⟩
      | false =>
        rw [show collapseWSAux false (d :: r) = ' ' :: collapseWSAux true r by
          simp [collapseWSAux, hd]] at h
        rcases List.mem_cons.mp h with h1 | h1
        · exact Or.inl h1
        · rcases ih true c h1 with h2 | ⟨h3, h4⟩
          · exact Or.inl h2
          · exact Or.inr ⟨List.mem_cons_of_mem d h3, h4⟩
    · rw [show collapseWSAux b (d :: r) = d :: collapseWSAux false r by
        simp [collapseWSAux, hd]] at h
      rcases List.mem_cons.mp h with h1 | h1
      · exact Or.inr ⟨by rw [h1]; exact List.mem_cons_self d r, by rw [h1]; simpa using hd⟩
      · rcases ih false c h1 with h2 | ⟨h3, h4⟩
        · exact Or.inl h2
        · exact Or.inr ⟨List.mem_cons_of_mem d h3, h4⟩

theorem mem_collapseNLAux : ∀ (l : List Char) (n : Nat) (c : Char),
    c ∈ collapseNLAux n l → c ∈ l := by
  intro l
  induction l with
  | nil => intro n c h; simp [collapseNLAux] at h
  | cons d r ih =>
    intro n c h
    by_cases hd : d = '\n'
    · subst hd
      by_cases hn : n < 2
      · rw [show collapseNLAux n ('\n' :: r) = '\n' :: collapseNLAux (n + 1) r by
          simp [collapseNLAux, hn]] at h
        rcases List.mem_cons.mp h with h1 | h1
        · rw [h1]; exact List.mem_cons_self _ r
        · exact List.mem_cons_of_mem _ (ih (n + 1) c h1)
      · rw [show collapseNLAux n ('\n' :: r) = collapseNLAux n r by
          simp [collapseNLAux, hn]] at h
        exact List.mem_cons_of_mem _ (ih n c h)
    · rw [show collapseNLAux n (d :: r) = d :: collapseNLAux 0 r by
        simp [collapseNLAux, hd]] at h
      rcases List.mem_cons.mp h with h1 | h1
      · rw [h1]; exact List.mem_cons_self d r
      · exact List.mem_cons_of_mem d (ih 0 c h1)

theorem mem_pyStripL {l : List Char} {c : Char} (h : c ∈ pyStripL l) : c ∈ l :=
  (pyStripL_within l).sublist.mem h

theorem head?_dropWhile_false {p : Char → Bool} {l : List Char} {c : Char}
    (h : (l.dropWhile p).head? = some c) : p c = false := by
  have h2 := List.head?_dropWhile_not p l
  rw [h] at h2
  exact h2

theorem headWS_pyStripL (l : List Char) : headWS (pyStripL l) = false := by
  unfold pyStripL headWS
  rw [List.head?_reverse]
  cases hc : ((l.dropWhile isPyWS).reverse.dropWhile isPyWS).getLast? with
  | none => rfl
  | some c =>
    rcases List.dropWhile_suffix (l := (l.dropWhile isPyWS).reverse) isPyWS with ⟨pre, hpre⟩
    have hne : (l.dropWhile isPyWS).reverse.dropWhile isPyWS ≠ [] := by
      intro hnil
      rw [hnil] at hc
      simp at hc
    have hlast : ((l.dropWhile isPyWS).reverse).getLast? = some c := by
      rw [← hpre, List.getLast?_append_of_ne_nil pre hne, hc]
    rw [List.getLast?_reverse] at hlast
    exact head?_dropWhile_false hlast

theorem lastWS_pyStripL (l : List Char) : lastWS (pyStripL l) = false := by
  unfold pyStripL lastWS
  rw [List.getLast?_reverse]
  cases hc : ((l.dropWhile isPyWS).reverse.dropWhile isPyWS).head? with
  | none => rfl
  | some c => exact head?_dropWhile_false hc

theorem containsChar_eq_false_of_not_mem {a : Char} {l : List Char} (h : a ∉ l) :
    containsChar a l = false := by
  rw [containsChar, List.any_eq_false]
  intro c hc
  by_cases he : c = a
  · exact absurd (he ▸ hc) h
  · simp [he]

/-- C9: `_clean_text` strips null bytes, collapses runs of horizontal
whitespace (spaces and tabs) to a single space, collapses 3 or more
consecutive newlines to exactly 2, and trims leading and trailing whitespace.
For every input, the normalized text contains no null byte and no tab, never
has two adjacent horizontal-whitespace characters or three adjacent newlines,
and neither starts nor ends with whitespace; the concrete equalities show a
horizontal run becoming one space, a 5-newline run becoming exactly two, a
2-newline run untouched, null bytes dropped, and both ends trimmed. -/
theorem C9_clean_text_normalizes :
    (∀ s : String,
        containsChar '\x00' (cleanText s).data = false
      ∧ containsChar '\t' (cleanText s).data = false
      ∧ hasPair isHT (cleanText s).data = false
      ∧ hasTriple isNL (cleanText s).data = false
      ∧ headWS (cleanText s).data = false
      ∧ lastWS (cleanText s).data = false)
  ∧ cleanText "a \t\t  b" = "a b"
  ∧ cleanText "a\n\n\n\n\nb" = "a\n\nb"
  ∧ cleanText "a\n\nb" = "a\n\nb"
  ∧ cleanText "\x00a\x00b\x00" = "ab"
  ∧ cleanText "  a b  " = "a b" := by
  refine ⟨fun s => ?_, by decide, by decide, by decide, by decide, by decide⟩
  have hdata : (cleanText s).data = cleanTextL s.data := rfl
  have hnull : '\x00' ∉ cleanTextL s.data := by
    intro hm
    have h1 := mem_collapseNLAux _ 0 _ (mem_pyStripL hm)
    rcases mem_collapseWSAux _ false _ h1 with h2 | ⟨h3, _⟩
    · exact absurd h2 (by decide)
    · have h5 := (List.mem_filter.mp h3).2
      simp at h5
  have htab : '\t' ∉ cleanTextL s.data := by
    intro hm
    have h1 := mem_collapseNLAux _ 0 _ (mem_pyStripL hm)
    rcases mem_collapseWSAux _ false _ h1 with h2 | ⟨_, h4⟩
    · exact absurd h2 (by decide)
    · exact absurd h4 (by decide)
  refine ⟨hdata ▸ containsChar_eq_false_of_not_mem hnull,
          hdata ▸ containsChar_eq_false_of_not_mem htab, ?_, ?_, ?_, ?_⟩
  · rw [hdata]
    exact hasPair_false_of_within (pyStripL_within _)
      (collapseNL_pair_preserve _ 0 (collapseWS_no_pair _ false))
  · rw [hdata]
    exact hasTriple_false_of_within (pyStripL_within _) (collapseNL_no_triple _ 0)
  · rw [hdata]
    exact headWS_pyStripL _
  · rw [hdata]
    exact lastWS_pyStripL _

/-! ## Lemmas about table extraction -/

theorem extractTablesPage_foldl_aux (raw : List (List (List RawCell)))
    (acc : List (List (List String))) :
    raw.foldl (fun acc t =>
        let cleaned := cleanTable t
        if tableKeep cleaned then acc ++ [cleaned] else acc) acc
      = acc ++ (raw.map cleanTable).filter tableKeep := by
  induction raw generalizing acc with
  | nil => simp
  | cons t rest ih =>
    simp only [List.foldl_cons, List.map_cons, List.filter_cons]
    by_cases hk : tableKeep (cleanTable t) = true
    · rw [if_pos hk, ih, hk]
      simp
    · rw [if_neg hk, ih]
      have hkf : tableKeep (cleanTable t) = false := by
        cases hq : tableKeep (cleanTable t) with
        | false => rfl
        | true => exact absurd hq hk
      rw [hkf]
      simp

theorem extractTablesPage_eq (raw : List (List (List RawCell))) :
    extractTablesPage raw = (raw.map cleanTable).filter tableKeep := by
  rw [extractTablesPage, extractTablesPage_foldl_aux]
  simp

theorem dropWhile_eq_self_of_head {p : Char → Bool} {l : List Char}
    (h : ∀ c, l.head? = some c → p c = false) : l.dropWhile p = l := by
  cases l with
  | nil => rfl
  | cons c t =>
    rw [List.dropWhile_cons, if_neg]
    rw [h c rfl]
    simp

theorem pyStripL_idem (l : List Char) : pyStripL (pyStripL l) = pyStripL l := by
  have hhead : ∀ c, (pyStripL l).head? = some c → isPyWS c = false := by
    intro c hc
    have hw := headWS_pyStripL l
    rw [headWS, hc] at hw
    exact hw
  have hlast : ∀ c, (pyStripL l).reverse.head? = some c → isPyWS c = false := by
    intro c hc
    rw [List.head?_reverse] at hc
    have hw := lastWS_pyStripL l
    rw [lastWS, hc] at hw
    exact hw
  show ((((pyStripL l).dropWhile isPyWS).reverse.dropWhile isPyWS)).reverse = pyStripL l
  rw [dropWhile_eq_self_of_head hhead, dropWhile_eq_self_of_head hlast, List.reverse_reverse]

theorem pyStrip_idem (s : String) : pyStrip (pyStrip s) = pyStrip s := by
  show String.mk (pyStripL (pyStripL s.data)) = String.mk (pyStripL s.data)
  rw [pyStripL_idem]

/-- C8: for every raw table detected on a page, every cell is trimmed (so
trimming a cell of the result again changes nothing), and the table is kept
iff at least one cell across all rows is non-empty after trimming — an
all-empty table is discarded since it fails `tableKeep`, which holds iff some
row has some non-empty cell. -/
theorem C8_table_filtering :
    (∀ raw, extractTablesPage raw = (raw.map cleanTable).filter tableKeep)
  ∧ (∀ raw t, t ∈ raw →
      (cleanTable t ∈ extractTablesPage raw ↔ tableKeep (cleanTable t) = true))
  ∧ (∀ raw tb row cell, tb ∈ extractTablesPage raw → row ∈ tb → cell ∈ row →
      pyStrip cell = cell)
  ∧ (∀ t : List (List String), tableKeep t = true ↔ ∃ row ∈ t, ∃ c ∈ row, c ≠ "") := by
  refine ⟨extractTablesPage_eq, ?_, ?_, ?_⟩
  · intro raw t ht
    rw [extractTablesPage_eq]
    constructor
    · intro hin
      exact (List.mem_filter.mp hin).2
    · intro hk
      exact List.mem_filter.mpr ⟨List.mem_map_of_mem cleanTable ht, hk⟩
  · intro raw tb row cell htb hrow hcell
    rw [extractTablesPage_eq] at htb
    have htb2 := (List.mem_filter.mp htb).1
    rcases List.mem_map.mp htb2 with ⟨t, _, hteq⟩
    rw [← hteq] at hrow
    rcases List.mem_map.mp hrow with ⟨r0, _, hreq⟩
    rw [← hreq] at hcell
    rcases List.mem_map.mp hcell with ⟨c0, _, hceq⟩
    rw [← hceq]
    exact pyStrip_idem _
  · intro t
    constructor
    · intro hk
      rcases List.any_eq_true.mp hk with ⟨row, hrow, hrowt⟩
      rcases List.any_eq_true.mp hrowt with ⟨c, hc, hct⟩
      exact ⟨row, hrow, c, hc, of_decide_eq_true hct⟩
    · rintro ⟨row, hrow, c, hc, hne⟩
      exact List.any_eq_true.mpr ⟨row, hrow, List.any_eq_true.mpr ⟨c, hc, decide_eq_true hne⟩⟩

/-- C8 witness: a table whose only non-empty-after-trim cell is `"a"` is kept
(here applied through the iff of `C8_table_filtering`), while the all-empty
table in the same raw list is discarded. -/
theorem C8_table_filtering_witness :
    cleanTable [[some " a ", none]] ∈ extractTablesPage [[[some " a ", none]], [[some "  "]]]
  ∧ extractTablesPage [[[some " a ", none]], [[some "  "]]] = [[["a", ""]]] := by
  constructor
  · exact (C8_table_filtering.2.1 _ _ (by decide)).mpr (by decide)
  · decide

/-! ## Path-safety, cache-load and cache-save claims -/

/-- C6: path resolution queries the filesystem only on in-root paths; a
candidate whose lexical resolution leaves the document root fails with the
path-escape error before any existence check (the query list stays empty);
an in-root candidate that does not exist fails with the not-found error; and
the concrete traversal `"../../etc/passwd"` from root `home/docs` escapes. -/
theorem C6_path_safety :
    (∀ root fp fsHas p, p ∈ (resolve_path root fp fsHas).2 → componentsLE root p = true)
  ∧ (∀ root fp fsHas, componentsLE root (resolveJoin root fp) = false →
      resolve_path root fp fsHas = (Except.error ResolveError.pathEscape, []))
  ∧ (∀ root fp fsHas, componentsLE root (resolveJoin root fp) = true →
      fsHas (resolveJoin root fp) = false →
      (resolve_path root fp fsHas).1 = Except.error ResolveError.notFound)
  ∧ (∀ fsHas, resolve_path ["home", "docs"] ["..", "..", "etc", "passwd"] fsHas
      = (Except.error ResolveError.pathEscape, [])) := by
  refine ⟨?_, ?_, ?_, ?_⟩
  · intro root fp fsHas p hp
    by_cases hc : componentsLE root (resolveJoin root fp) = true
    · rw [resolve_path] at hp
      simp only [hc, if_true] at hp
      rcases List.mem_singleton.mp hp with h
      rw [h]
      exact hc
    · rw [resolve_path] at hp
      simp only [hc] at hp
      simp at hp
  · intro root fp fsHas hc
    rw [resolve_path]
    simp [hc]
  · intro root fp fsHas hc hex
    rw [resolve_path]
    simp [hc, hex]
  · intro fsHas
    have hc : componentsLE ["home", "docs"]
        (resolveJoin ["home", "docs"] ["..", "..", "etc", "passwd"]) = false := by decide
    rw [resolve_path]
    simp [hc]

/-- C6 witness: the escaping traversal fails with the path-escape error while
touching nothing, and an in-root missing file fails with the not-found
error. -/
theorem C6_path_safety_witness :
    resolve_path ["home", "docs"] ["..", "..", "etc", "passwd"] (fun _ => true)
      = (Except.error ResolveError.pathEscape, [])
  ∧ (resolve_path ["home", "docs"] ["sub", "f.pdf"] (fun _ => false)).1
      = Except.error ResolveError.notFound := by
  constructor
  · exact C6_path_safety.2.2.2 (fun _ => true)
  · exact C6_path_safety.2.2.1 ["home", "docs"] ["sub", "f.pdf"] (fun _ => false) (by decide) rfl

/-- C7: `_load_cache` returns `None` on a missing cache entry and `None` —
rather than propagating an exception, the function is total into `Option` —
on an entry whose deserialization fails; corrupt cache files are cache
misses, not fatal errors. -/
theorem C7_cache_load_total (st : Store) (key : String) :
    (storeFind st key = none → load_cache st key = none)
  ∧ (storeFind st key = some CacheFile.corrupt → load_cache st key = none) := by
  constructor
  · intro h
    rw [load_cache, h]
  · intro h
    rw [load_cache, h]

/-- C7 witness: a store holding only a corrupt entry at the key, and an empty
store, both produce a miss. -/
theorem C7_cache_load_total_witness :
    load_cache [("k.json", CacheFile.corrupt)] "k.json" = none
  ∧ load_cache [] "missing.json" = none := by
  constructor
  · exact (C7_cache_load_total _ _).2 (by decide)
  · exact (C7_cache_load_total _ _).1 rfl

/-- C2 counterexample: `_save_cache` does not write to a temporary location —
it truncates the final cache file in place, so a serialization failure after
3 characters leaves `"NEW"` where the pre-existing entry `"OLD-ENTRY"` was:
the pre-existing entry is corrupted. -/
theorem C2_counterexample :
    ¬ (fsGet (save_cache [("doc_hash.json", "OLD-ENTRY")] "doc_hash.json" "NEW-PAYLOAD" (some 3))
        "doc_hash.json" = some "OLD-ENTRY") := by decide

/-- C2 amended: `_save_cache` opens the final cache path directly (no temp
file, no rename): a completed serialization stores the full payload, while a
serialization failure after `k` characters leaves the truncated prefix in
place, destroying a pre-existing entry whenever the prefix differs from it
(the exception itself is caught and logged, so save never raises). -/
theorem C2_direct_write (fs : ByteFS) (cacheFile payload old : String) (k : Nat)
    (_hold : fsGet fs cacheFile = some old) (hne : old ≠ payload.take k) :
    fsGet (save_cache fs cacheFile payload none) cacheFile = some payload
  ∧ fsGet (save_cache fs cacheFile payload (some k)) cacheFile = some (payload.take k)
  ∧ fsGet (save_cache fs cacheFile payload (some k)) cacheFile ≠ some old := by
  have hfull : fsGet (save_cache fs cacheFile payload none) cacheFile = some payload := by
    simp [save_cache, fsSet, fsGet]
  have hpart : fsGet (save_cache fs cacheFile payload (some k)) cacheFile
      = some (payload.take k) := by
    simp [save_cache, fsSet, fsGet]
  refine ⟨hfull, hpart, ?_⟩
  rw [hpart]
  intro hcontra
  exact hne (Option.some.inj hcontra).symm

/-- C2 witness: concrete pre-existing entry `"OLD-ENTRY"`, payload
`"NEW-PAYLOAD"`, failure after 3 characters: the file now holds `"NEW"` and
no longer the old entry. -/
theorem C2_direct_write_witness :
    fsGet (save_cache [("doc_hash.json", "OLD-ENTRY")] "doc_hash.json" "NEW-PAYLOAD" (some 3))
        "doc_hash.json" = some "NEW"
  ∧ fsGet (save_cache [("doc_hash.json", "OLD-ENTRY")] "doc_hash.json" "NEW-PAYLOAD" (some 3))
        "doc_hash.json" ≠ some "OLD-ENTRY" := by
  have h := C2_direct_write [("doc_hash.json", "OLD-ENTRY")] "doc_hash.json" "NEW-PAYLOAD"
    "OLD-ENTRY" 3 (by decide) (by decide)
  refine ⟨?_, h.2.2⟩
  rw [h.2.1]
  decide

/-! ## OCR gating and the three-page scenario -/

/-- C4: `_try_ocr` is invoked for a page iff the trimmed native text length
is strictly below `MIN_TEXT_THRESHOLD = 50` and the page has embedded
images; in particular a 10-character page with images triggers the attempt
and a 10-character page without images does not. -/
theorem C4_ocr_gating :
    (∀ (cfg : Config) (rp : RawPage) (pageNum : Nat) (extractTables : Bool),
        ((extractPage cfg rp pageNum extractTables).2.2 = true
          ↔ (pyStrip rp.nativeText).length < MIN_TEXT_THRESHOLD ∧ rp.hasImages = true))
  ∧ (extractPage ⟨true⟩ ⟨"abcdefghij", true, none, []⟩ 1 false).2.2 = true
  ∧ (extractPage ⟨true⟩ ⟨"abcdefghij", false, none, []⟩ 1 false).2.2 = false := by
  refine ⟨?_, by decide, by decide⟩
  intro cfg rp pageNum extractTables
  show ocrGate rp = true ↔ _
  rw [ocrGate, Bool.and_eq_true, decide_eq_true_eq]

set_option maxRecDepth 10000 in
/-- C3 counterexample: on the spec's three-page scenario (500 native chars /
5 chars + image with OCR returning 200 chars / 5 chars without image) the
code labels page 2 `"ocr_tesseract"` — not `"ocr"` — labels page 3
`"pymupdf"` — not `"native"` — and emits no warning at all, so no warning
references page 3. -/
theorem C3_counterexample :
    ¬ ((scenarioResult.pages.getD 1 defaultPageContent).extraction_method = "ocr"
      ∧ (scenarioResult.pages.getD 2 defaultPageContent).extraction_method = "native"
      ∧ scenarioResult.warnings ≠ []) := by decide

set_option maxRecDepth 10000 in
/-- C3 amended: on the three-page scenario, page 2 (index 1) is extracted by
OCR with method label `"ocr_tesseract"`, pages 1 and 3 keep the native label
`"pymupdf"`, and no warning is emitted — the low-text warning fires only for
pages that have images and whose OCR attempt yields nothing, which excludes
the imageless page 3. -/
theorem C3_scenario :
    (scenarioResult.pages.getD 1 defaultPageContent).extraction_method = "ocr_tesseract"
  ∧ (scenarioResult.pages.getD 2 defaultPageContent).extraction_method = "pymupdf"
  ∧ (scenarioResult.pages.getD 0 defaultPageContent).extraction_method = "pymupdf"
  ∧ scenarioResult.warnings = [] := by decide

/-! ## Lemmas about the orchestrator -/

theorem idxRange_drop : ∀ (k a n : Nat), (idxRange a n).drop k = idxRange (a + k) (n - k) := by
  intro k
  induction k with
  | zero => intro a n; simp [idxRange]
  | succ k ih =>
    intro a n
    cases n with
    | zero => simp [idxRange]
    | succ m =>
      show (idxRange (a + 1) m).drop k = _
      rw [ih (a + 1) m]
      have h1 : a + 1 + k = a + (k + 1) := by omega
      have h2 : m - k = m + 1 - (k + 1) := by omega
      rw [h1, h2]

theorem idxRange_take : ∀ (k a n : Nat), (idxRange a n).take k = idxRange a (min k n) := by
  intro k
  induction k with
  | zero => intro a n; simp [idxRange]
  | succ k ih =>
    intro a n
    cases n with
    | zero => simp [idxRange]
    | succ m =>
      show a :: (idxRange (a + 1) m).take k = _
      rw [ih (a + 1) m]
      have h1 : min (k + 1) (m + 1) = min k m + 1 := by omega
      rw [h1]
      rfl

theorem idxRange_map_succ : ∀ (n a : Nat),
    (idxRange a n).map (fun i => i + 1) = idxRange (a + 1) n := by
  intro n
  induction n with
  | zero => intro a; rfl
  | succ m ih =>
    intro a
    show (a + 1) :: (idxRange (a + 1) m).map (fun i => i + 1) = _
    rw [ih (a + 1)]
    rfl

theorem extractMiss_pages (cfg : Config) (idn : FileIdentity) (doc : Doc)
    (ps pe : Option Nat) (tables u : Bool) (store : Store) :
    (extractMiss cfg idn doc ps pe tables u store).1.pages
      = (idxRange (startIndex ps) (endIndex pe doc.pages.length - startIndex ps)).map
          (fun i => (extractPage cfg (doc.pages.getD i defaultRawPage) (i + 1) tables).1) := by
  simp only [extractMiss, pageItems, List.map_map]
  rfl

theorem extract_pages_cold (cfg : Config) (idn : FileIdentity) (doc : Doc)
    (ps pe : Option Nat) (tables : Bool) (store : Store) :
    (extract_text cfg idn doc ps pe tables false store).1.pages
      = (idxRange (startIndex ps) (endIndex pe doc.pages.length - startIndex ps)).map
          (fun i => (extractPage cfg (doc.pages.getD i defaultRawPage) (i + 1) tables).1) :=
  extractMiss_pages cfg idn doc ps pe tables false store

theorem extract_pagenums_cold (cfg : Config) (idn : FileIdentity) (doc : Doc)
    (ps pe : Option Nat) (tables : Bool) (store : Store) :
    ((extract_text cfg idn doc ps pe tables false store).1.pages).map (fun p => p.page_number)
      = idxRange (startIndex ps + 1) (endIndex pe doc.pages.length - startIndex ps) := by
  rw [extract_pages_cold, List.map_map]
  have hc : ((fun p : PageContent => p.page_number) ∘
      fun i => (extractPage cfg (doc.pages.getD i defaultRawPage) (i + 1) tables).1)
      = fun i => i + 1 := rfl
  rw [hc, idxRange_map_succ]

theorem extractMiss_store_eq (cfg : Config) (idn : FileIdentity) (doc : Doc)
    (ps pe : Option Nat) (tables u : Bool) (store : Store) :
    (extractMiss cfg idn doc ps pe tables u store).2.1
      = (if u && !truthyNat ps && !truthyNat pe then
           storeSet store (cache_path idn.stem idn.fileHash)
             (CacheFile.good (extractMiss cfg idn doc ps pe tables u store).1)
         else store) := rfl

theorem load_cache_storeSet_good (st : Store) (key : String) (r : ExtractionResult) :
    load_cache (storeSet st key (CacheFile.good r)) key = some r := by
  simp [load_cache, storeSet, storeFind]

/-- C5: for every document and every 1-indexed inclusive range, the ranged
extraction returns exactly the pages of the range in order — its page-number
list is `s, s+1, …` up to the range/document end — and equals the slice of
the unranged extraction's pages; and the `_filter_pages` cache-projection
path returns a new result whose pages are the contiguous sub-sequence for
the range with metadata and warnings unchanged. -/
theorem C5_range_projection :
    (∀ (cfg : Config) (idn : FileIdentity) (doc : Doc) (tables : Bool) (store : Store)
        (s e : Nat), 1 ≤ s → 1 ≤ e →
        ((extract_text cfg idn doc (some s) (some e) tables false store).1.pages
            = (((extract_text cfg idn doc none none tables false store).1.pages.drop
                (s - 1)).take (e - (s - 1))))
        ∧ ((extract_text cfg idn doc (some s) (some e) tables false store).1.pages.map
              (fun p => p.page_number))
            = idxRange s (min e doc.pages.length - (s - 1)))
  ∧ (∀ (r : ExtractionResult) (s e : Nat), 1 ≤ s → 1 ≤ e →
        filter_pages r (some s) (some e)
          = ⟨r.metadata, (r.pages.drop (s - 1)).take (e - (s - 1)), r.warnings⟩) := by
  constructor
  · intro cfg idn doc tables store s e hs he
    have hs0 : ¬(s = 0) := by omega
    have he0 : ¬(e = 0) := by omega
    have hstart : startIndex (some s) = s - 1 := by simp [startIndex, hs0]
    have hend : endIndex (some e) doc.pages.length = min e doc.pages.length := by
      simp [endIndex, he0]
    have hendu : endIndex (none : Option Nat) doc.pages.length = doc.pages.length := by
      simp [endIndex]
    have hstartu : startIndex (none : Option Nat) = 0 := rfl
    constructor
    · rw [extract_pages_cold, extract_pages_cold, hstart, hend, hstartu, hendu]
      rw [← List.map_drop, ← List.map_take, idxRange_drop, idxRange_take]
      have h1 : 0 + (s - 1) = s - 1 := by omega
      have h2 : min (e - (s - 1)) (doc.pages.length - 0 - (s - 1))
          = min e doc.pages.length - (s - 1) := by omega
      rw [h1, h2]
    · rw [extract_pagenums_cold, hstart, hend]
      have h3 : s - 1 + 1 = s := by omega
      rw [h3]
  · intro r s e hs he
    have hs0 : ¬(s = 0) := by omega
    have he0 : ¬(e = 0) := by omega
    simp [filter_pages, pyOrNat, hs0, he0]

set_option maxRecDepth 10000 in
/-- C5 witness: on the plain three-page document, the pages-2-to-3 extraction
equals the corresponding slice of the unranged one, its page numbers are
exactly `[2, 3]`, and `_filter_pages` projects a concrete result to pages
2–3 with metadata and warnings unchanged. -/
theorem C5_range_projection_witness :
    ((extract_text ⟨false⟩ plainIdn plainDoc (some 2) (some 3) false false []).1.pages
        = (((extract_text ⟨false⟩ plainIdn plainDoc none none false false []).1.pages.drop
            (2 - 1)).take (3 - (2 - 1))))
  ∧ ((extract_text ⟨false⟩ plainIdn plainDoc (some 2) (some 3) false false []).1.pages.map
        (fun p => p.page_number)) = [2, 3]
  ∧ filter_pages ⟨buildMetadata plainIdn plainDoc, [⟨1, "a", [], false, "pymupdf"⟩,
        ⟨2, "b", [], false, "pymupdf"⟩, ⟨3, "c", [], false, "pymupdf"⟩], ["w"]⟩
        (some 2) (some 3)
      = ⟨buildMetadata plainIdn plainDoc, [⟨2, "b", [], false, "pymupdf"⟩,
        ⟨3, "c", [], false, "pymupdf"⟩], ["w"]⟩ := by
  have h := C5_range_projection.1 ⟨false⟩ plainIdn plainDoc false [] 2 3 (by omega) (by omega)
  refine ⟨h.1, ?_, ?_⟩
  · rw [h.2]
    decide
  · rw [C5_range_projection.2 _ 2 3 (by omega) (by omega)]
    decide

set_option maxRecDepth 10000 in
/-- C1 counterexample: with an empty cache, two identical *ranged* calls
(pages 2–3 of the plain document, `use_cache = true`) are not served from
the cache: ranged requests are never persisted (pdf_processor.py:316-317),
so the second call re-invokes the text engine for both pages instead of
being a cache hit with no engine invocations. -/
theorem C1_counterexample :
    ¬ ((extract_text ⟨false⟩ plainIdn plainDoc (some 2) (some 3) true true
          (extract_text ⟨false⟩ plainIdn plainDoc (some 2) (some 3) true true []).2.1).2.2
        = noEngineCalls) := by decide

/-- C1 amended: calling `extract_text` twice with identical arguments and
`use_cache = true` on an unchanged file yields identical `ExtractionResult`
content (metadata, pages and warnings; wall-clock timing excluded); when the
arguments are unranged the second call is additionally a cache hit that
invokes no extraction engine (text, OCR or table).  Ranged calls are never
persisted, so a cold ranged pair recomputes — still with identical content. -/
theorem C1_cache_idempotence (cfg : Config) (idn : FileIdentity) (doc : Doc)
    (ps pe : Option Nat) (tables : Bool) (store : Store) :
    (extract_text cfg idn doc ps pe tables true
        (extract_text cfg idn doc ps pe tables true store).2.1).1
      = (extract_text cfg idn doc ps pe tables true store).1
  ∧ (truthyNat ps = false → truthyNat pe = false →
      (extract_text cfg idn doc ps pe tables true
          (extract_text cfg idn doc ps pe tables true store).2.1).2.2
        = noEngineCalls) := by
  cases hload : load_cache store (cache_path idn.stem idn.fileHash) with
  | some cached =>
    have h1 : extract_text cfg idn doc ps pe tables true store
        = ((if truthyNat ps || truthyNat pe then filter_pages cached ps pe else cached),
           store, noEngineCalls) := by
      rw [extract_text]
      simp [hload]
    have hst : (extract_text cfg idn doc ps pe tables true store).2.1 = store := by
      rw [h1]
    rw [hst]
    refine ⟨rfl, fun _ _ => ?_⟩
    rw [h1]
  | none =>
    have h1 : extract_text cfg idn doc ps pe tables true store
        = extractMiss cfg idn doc ps pe tables true store := by
      rw [extract_text]
      simp [hload]
    cases hps : truthyNat ps with
    | true =>
      have hst : (extract_text cfg idn doc ps pe tables true store).2.1 = store := by
        rw [h1, extractMiss_store_eq, hps]
        simp
      rw [hst]
      refine ⟨rfl, fun ha _ => ?_⟩
      simp at ha
    | false =>
      cases hpe : truthyNat pe with
      | true =>
        have hst : (extract_text cfg idn doc ps pe tables true store).2.1 = store := by
          rw [h1, extractMiss_store_eq, hps, hpe]
          simp
        rw [hst]
        refine ⟨rfl, fun _ hb => ?_⟩
        simp at hb
      | false =>
        have hst : (extract_text cfg idn doc ps pe tables true store).2.1
            = storeSet store (cache_path idn.stem idn.fileHash)
                (CacheFile.good (extractMiss cfg idn doc ps pe tables true store).1) := by
          rw [h1, extractMiss_store_eq, hps, hpe]
          simp
        have hload2 : load_cache ((extract_text cfg idn doc ps pe tables true store).2.1)
            (cache_path idn.stem idn.fileHash)
            = some ((extractMiss cfg idn doc ps pe tables true store).1) := by
          rw [hst]
          exact load_cache_storeSet_good _ _ _
        have h2 : extract_text cfg idn doc ps pe tables true
              ((extract_text cfg idn doc ps pe tables true store).2.1)
            = ((if truthyNat ps || truthyNat pe then
                  filter_pages ((extractMiss cfg idn doc ps pe tables true store).1) ps pe
                else (extractMiss cfg idn doc ps pe tables true store).1),
               ((extract_text cfg idn doc ps pe tables true store).2.1), noEngineCalls) := by
        -- unfold the outer call against the saved store
          rw [extract_text]
          simp [hload2]
        rw [h2, h1]
        constructor
        · simp [hps, hpe]
        · intro _ _
          rfl

set_option maxRecDepth 10000 in
/-- C1 witness: the unranged pair of calls on the plain document with a cold
cache yields equal results and a second call that invokes no engine. -/
theorem C1_cache_idempotence_witness :
    (extract_text ⟨false⟩ plainIdn plainDoc none none true true
        (extract_text ⟨false⟩ plainIdn plainDoc none none true true []).2.1).1
      = (extract_text ⟨false⟩ plainIdn plainDoc none none true true []).1
  ∧ (extract_text ⟨false⟩ plainIdn plainDoc none none true true
        (extract_text ⟨false⟩ plainIdn plainDoc none none true true []).2.1).2.2
      = noEngineCalls := by
  have h := C1_cache_idempotence ⟨false⟩ plainIdn plainDoc none none true []
  exact ⟨h.1, h.2 rfl rfl⟩

/-- C10: the cache address depends only on the sanitized stem and the
content hash — `cache_path` takes nothing else — so after a first extraction
with `extract_tables = false` (the corpus-search configuration) has been
cached, a later call with `extract_tables = true` and `use_cache = true`
returns the cached result (equal content, no engine invoked) and its pages
contain no tables. -/
theorem C10_cache_ignores_tables (cfg : Config) (idn : FileIdentity) (doc : Doc)
    (store : Store)
    (hcold : storeFind store (cache_path idn.stem idn.fileHash) = none) :
    (extract_text cfg idn doc none none true true
        (extract_text cfg idn doc none none false true store).2.1).1
      = (extract_text cfg idn doc none none false true store).1
  ∧ (extract_text cfg idn doc none none true true
        (extract_text cfg idn doc none none false true store).2.1).2.2 = noEngineCalls
  ∧ ∀ p ∈ (extract_text cfg idn doc none none true true
        (extract_text cfg idn doc none none false true store).2.1).1.pages,
      p.tables = [] := by
  have hload : load_cache store (cache_path idn.stem idn.fileHash) = none := by
    rw [load_cache, hcold]
  have h1 : extract_text cfg idn doc none none false true store
      = extractMiss cfg idn doc none none false true store := by
    rw [extract_text]
    simp [hload]
  have hst : (extract_text cfg idn doc none none false true store).2.1
      = storeSet store (cache_path idn.stem idn.fileHash)
          (CacheFile.good (extractMiss cfg idn doc none none false true store).1) := by
    rw [h1, extractMiss_store_eq]
    rfl
  have hload2 : load_cache ((extract_text cfg idn doc none none false true store).2.1)
      (cache_path idn.stem idn.fileHash)
      = some ((extractMiss cfg idn doc none none false true store).1) := by
    rw [hst]
    exact load_cache_storeSet_good _ _ _
  have h2 : extract_text cfg idn doc none none true true
        ((extract_text cfg idn doc none none false true store).2.1)
      = ((extractMiss cfg idn doc none none false true store).1,
         ((extract_text cfg idn doc none none false true store).2.1), noEngineCalls) := by
    rw [extract_text]
    simp [hload2, truthyNat]
  rw [h2, h1]
  refine ⟨rfl, rfl, ?_⟩
  intro p hp
  rw [extractMiss_pages] at hp
  rcases List.mem_map.mp hp with ⟨i, _, hpe⟩
  rw [← hpe]
  rfl

set_option maxRecDepth 10000 in
/-- C10 witness: the plain document, first extracted without tables through
the search configuration and then requested with tables, comes back from the
cache with identical content, no engine invocations, and table-free pages. -/
theorem C10_cache_ignores_tables_witness :
    (extract_text ⟨false⟩ plainIdn plainDoc none none true true
        (extract_text ⟨false⟩ plainIdn plainDoc none none false true []).2.1).1
      = (extract_text ⟨false⟩ plainIdn plainDoc none none false true []).1
  ∧ (extract_text ⟨false⟩ plainIdn plainDoc none none true true
        (extract_text ⟨false⟩ plainIdn plainDoc none none false true []).2.1).2.2
      = noEngineCalls
  ∧ ((extract_text ⟨false⟩ plainIdn plainDoc none none true true
        (extract_text ⟨false⟩ plainIdn plainDoc none none false true []).2.1).1.pages.all
      (fun p => decide (p.tables = []))) = true := by
  have h := C10_cache_ignores_tables ⟨false⟩ plainIdn plainDoc [] rfl
  refine ⟨h.1, h.2.1, ?_⟩
  decide

end Extrema
